import Mathlib

/-!
Verification of the geo-intel-offline library (TypeScript) against its
natural-language specification.  The source is embedded shallowly:
TypeScript numbers appearing in exact arithmetic (geohash subdivision,
ray casting) are modelled as rationals, distances (which involve square
roots) land in the reals, and fallible operations return `Except`.
-/

namespace GeoIntel

/-! ## Generic list/string helpers (JS semantics) -/

/-- Does the needle occur at the head of the haystack?  (Helper for JS
`String.prototype.includes`.) -/
def leadMatch : List Char → List Char → Bool
  | _, [] => true
  | [], _ :: _ => false
  | c :: cs, d :: ds => c = d && leadMatch cs ds

/-- JS `haystack.includes(needle)`: contiguous-substring containment. -/
def hasSub : List Char → List Char → Bool
  | h, n =>
    leadMatch h n ||
      match h with
      | [] => false
      | _ :: t => hasSub t n

/-- Whitespace-trimming on a character list (JS `String.prototype.trim`). -/
def trimChars (l : List Char) : List Char :=
  ((l.dropWhile Char.isWhitespace).reverse.dropWhile Char.isWhitespace).reverse

/-- JS `s.trim()`. -/
def jsTrim (s : String) : String := ⟨trimChars s.toList⟩

/-- JS `s.toUpperCase()` (ASCII). -/
def jsUpper (s : String) : String := ⟨s.toList.map Char.toUpper⟩

/-- JS `s.toLowerCase()` (ASCII). -/
def jsLower (s : String) : String := ⟨s.toList.map Char.toLower⟩

/-- Association-list lookup by numeric key (models JS object indexing
`obj[key]`, `undefined` becoming `none`). -/
def lookupKey {α : Type} : List (Nat × α) → Nat → Option α
  | [], _ => none
  | (k, v) :: rest, key => if k = key then some v else lookupKey rest key

/-- Association-list lookup by string key. -/
def lookupStr {α : Type} : List (String × α) → String → Option α
  | [], _ => none
  | (k, v) :: rest, key => if k = key then some v else lookupStr rest key

instance {ε α : Type} [DecidableEq ε] [DecidableEq α] : DecidableEq (Except ε α) :=
  fun a b =>
    match a, b with
    | .ok x, .ok y => decidable_of_iff (x = y) (by simp)
    | .error x, .error y => decidable_of_iff (x = y) (by simp)
    | .ok _, .error _ => isFalse (by simp)
    | .error _, .ok _ => isFalse (by simp)

/-! ## Geohash codec (src/geohash/index.ts) -/

/-- The base-32 alphabet used by the geohash codec (`BASE32`). -/
def base32Chars : List Char := "0123456789bcdefghjkmnpqrstuvwxyz".toList

/-- `BASE32[ch]` (indexing; out-of-range yields a placeholder, never hit
because the accumulated character value stays below 32). -/
def base32Char (ch : Nat) : Char := base32Chars.getD ch ' '

/-- `BASE32.indexOf(c)` (`-1` becoming `none`). -/
def base32Index (c : Char) : Option Nat := base32Chars.findIdx? (fun x => x = c)

/-- One iteration of the body of the `encode` loop of
src/geohash/index.ts: bit index `i`, character accumulator `ch`, current
latitude/longitude ranges.  Even `i` refines longitude, odd `i` refines
latitude; a set bit is OR-ed in at position
`bitsPerChar - 1 - Math.floor(i / 2) % bitsPerChar`, exactly as in the
source (including its use of `i / 2` rather than `i`). -/
def encodeStep (lat lon : ℚ) (i ch : Nat) (latR lonR : ℚ × ℚ) :
    Nat × (ℚ × ℚ) × (ℚ × ℚ) :=
  if i % 2 = 0 then
    let mid := (lonR.1 + lonR.2) / 2
    if lon ≥ mid then
      (ch ||| (1 <<< (4 - (i / 2) % 5)), latR, (mid, lonR.2))
    else
      (ch, latR, (lonR.1, mid))
  else
    let mid := (latR.1 + latR.2) / 2
    if lat ≥ mid then
      (ch ||| (1 <<< (4 - (i / 2) % 5)), (mid, latR.2), lonR)
    else
      (ch, (latR.1, mid), lonR)

/-- The `encode` loop: `fuel` is the number of remaining bit iterations;
after every fifth bit the accumulated character is emitted and the
accumulator reset, as in the source (`if ((i + 1) % 5 === 0)`). -/
def encodeBits (lat lon : ℚ) : Nat → Nat → Nat → (ℚ × ℚ) → (ℚ × ℚ) → List Char
  | _, 0, _, _, _ => []
  | i, fuel + 1, ch, latR, lonR =>
    match encodeStep lat lon i ch latR lonR with
    | (ch', latR', lonR') =>
      if (i + 1) % 5 = 0 then
        base32Char ch' :: encodeBits lat lon (i + 1) fuel 0 latR' lonR'
      else
        encodeBits lat lon (i + 1) fuel ch' latR' lonR'

/-- The body of `encode` after the range checks: run `precision * 5` bit
iterations starting from the full latitude/longitude ranges. -/
def encodeRaw (lat lon : ℚ) (precision : Nat) : String :=
  ⟨encodeBits lat lon 0 (precision * 5) 0 (-90, 90) (-180, 180)⟩

/-- `encode(lat, lon, precision)`: validates the ranges then encodes
(the thrown `Error`s become `Except.error`). -/
def encode (lat lon : ℚ) (precision : Nat) : Except String String :=
  if lat < -90 ∨ lat > 90 then
    .error "Latitude must be between -90 and 90"
  else if lon < -180 ∨ lon > 180 then
    .error "Longitude must be between -180 and 180"
  else
    .ok (encodeRaw lat lon precision)

/-- Decoder state: parity flag (`isEven`) plus the current ranges. -/
structure DecState where
  isEven : Bool
  latR : ℚ × ℚ
  lonR : ℚ × ℚ
  deriving DecidableEq, Repr

/-- One bit of `decode`: even positions refine longitude, odd positions
refine latitude, then the parity flips. -/
def decodeStep (bit : Nat) (st : DecState) : DecState :=
  if st.isEven then
    let mid := (st.lonR.1 + st.lonR.2) / 2
    if bit ≠ 0 then
      ⟨!st.isEven, st.latR, (mid, st.lonR.2)⟩
    else
      ⟨!st.isEven, st.latR, (st.lonR.1, mid)⟩
  else
    let mid := (st.latR.1 + st.latR.2) / 2
    if bit ≠ 0 then
      ⟨!st.isEven, (mid, st.latR.2), st.lonR⟩
    else
      ⟨!st.isEven, (st.latR.1, mid), st.lonR⟩

/-- Process the 5 bits of one base-32 digit, most significant first
(`for (let j = 0; j < 5; j++) { const bit = (idx >> (4 - j)) & 1; ... }`). -/
def decodeChar (idx : Nat) (st : DecState) : DecState :=
  ([0, 1, 2, 3, 4] : List Nat).foldl
    (fun st j => decodeStep ((idx >>> (4 - j)) &&& 1) st) st

/-- Result of `decode`: point estimate plus the exact bounding box. -/
structure DecodeRes where
  lat : ℚ
  lon : ℚ
  latRange : ℚ × ℚ
  lonRange : ℚ × ℚ
  deriving DecidableEq, Repr

/-- `decode(geohash)`: rejects the empty string and invalid characters,
otherwise narrows the ranges per bit and returns midpoints plus box. -/
def decode (geohash : String) : Except String DecodeRes := do
  if geohash = "" then
    throw "Geohash cannot be empty"
  let st ← geohash.toList.foldlM
    (fun st c =>
      match base32Index c with
      | none => throw "Invalid geohash character"
      | some idx => pure (decodeChar idx st))
    (⟨true, (-90, 90), (-180, 180)⟩ : DecState)
  pure ⟨(st.latR.1 + st.latR.2) / 2, (st.lonR.1 + st.lonR.2) / 2,
        st.latR, st.lonR⟩

/-- `getNeighbors(geohash)`: decode, take the cell extents as steps,
re-encode the 8 offset points with latitude and longitude clamped. -/
def getNeighbors (geohash : String) : Except String (List String) := do
  let d ← decode geohash
  let latStep := d.latRange.2 - d.latRange.1
  let lonStep := d.lonRange.2 - d.lonRange.1
  let offsets :=
    ([-latStep, 0, latStep] : List ℚ).flatMap fun dlat =>
      ([-lonStep, 0, lonStep] : List ℚ).filterMap fun dlon =>
        if dlat = 0 ∧ dlon = 0 then none else some (dlat, dlon)
  offsets.mapM fun o =>
    encode (max (-90) (min 90 (d.lat + o.1))) (max (-180) (min 180 (d.lon + o.2)))
      geohash.length

/-! ## Point-in-polygon (src/pip.ts) -/

/-- A `[lat, lon]` pair. -/
abbrev Pt := ℚ × ℚ

/-- A polygon ring. -/
abbrev Ring := List Pt

/-- The `(polygon[i], polygon[j])` pairs visited by the ray-casting loop:
`j` starts at `polygon.length - 1` and trails `i` afterwards. -/
def edgePairs : Ring → List (Pt × Pt)
  | [] => []
  | p :: ps => (p :: ps).zip ((p :: ps).getLastD p :: p :: ps)

/-- The body of the `pointInPolygon` loop for one edge: possibly toggle
the `inside` flag.  The crossing longitude divides by `lat_j - lat_i`
(never zero in the taken branch, and total on ℚ anyway). -/
def pipToggle (lat lon : ℚ) (inside : Bool) (e : Pt × Pt) : Bool :=
  match e with
  | ((lat_i, lon_i), (lat_j, lon_j)) =>
    if (decide (lat_i > lat)) ≠ (decide (lat_j > lat)) then
      let intersectLon :=
        if lon_j ≠ lon_i then
          (lat - lat_i) * (lon_j - lon_i) / (lat_j - lat_i) + lon_i
        else
          lon_i
      if lon < intersectLon then !inside else inside
    else
      inside

/-- `pointInPolygon(point, polygon)`: ray casting; fails closed for
rings with fewer than 3 points. -/
def pointInPolygon (point : Pt) (polygon : Ring) : Bool :=
  if polygon.length < 3 then
    false
  else
    (edgePairs polygon).foldl (pipToggle point.1 point.2) false

/-- `pointInPolygonWithHoles(point, exterior, holes)`: inside the
exterior and inside no hole. -/
def pointInPolygonWithHoles (point : Pt) (exterior : Ring)
    (holes : List Ring) : Bool :=
  if !pointInPolygon point exterior then
    false
  else if holes.any (fun hole => pointInPolygon point hole) then
    false
  else
    true

/-- Squared distance from `point` to the segment `(pi, pj)`, exactly as
computed (before the square root) by `distanceToPolygonEdge`:
degenerate segments use the point distance, otherwise the point is
projected onto the segment with clamped parameter `t`. -/
def segDistSq (lat lon : ℚ) (e : Pt × Pt) : ℚ :=
  match e with
  | ((lat_i, lon_i), (lat_j, lon_j)) =>
    let dx := lon_j - lon_i
    let dy := lat_j - lat_i
    if dx = 0 ∧ dy = 0 then
      (lat - lat_i) ^ 2 + (lon - lon_i) ^ 2
    else
      let t := max 0 (min 1 (((lat - lat_i) * dy + (lon - lon_i) * dx) / (dx * dx + dy * dy)))
      let projLat := lat_i + t * dy
      let projLon := lon_i + t * dx
      (lat - projLat) ^ 2 + (lon - projLon) ^ 2

/-- `distanceToPolygonEdge(point, polygon)`: minimum over all edges of
the Euclidean point-to-segment distance; `none` models the `Infinity`
returned for an empty ring. -/
noncomputable def distanceToPolygonEdge (point : Pt) (polygon : Ring) : Option ℝ :=
  ((edgePairs polygon).map (fun e => Real.sqrt ((segDistSq point.1 point.2 e : ℚ) : ℝ))).min?

/-! ## Confidence scoring (src/utils/confidence.ts, packaged with
src/data/loader.ts) -/

/-- `Math.min` on distances where `none` plays the role of `Infinity`. -/
noncomputable def optMin : Option ℝ → Option ℝ → Option ℝ
  | none, b => b
  | some x, none => some x
  | some x, some y => some (min x y)

/-- The minimum edge distance used by `calculateConfidence`: distance to
the exterior, folded with `Math.min` over the distances to each hole. -/
noncomputable def minDistAll (point : Pt) (polygon : Ring) (holes : List Ring) : Option ℝ :=
  holes.foldl (fun acc hole => optMin acc (distanceToPolygonEdge point hole))
    (distanceToPolygonEdge point polygon)

/-- The piecewise-linear distance→confidence mapping of
`calculateConfidence` (`none` = `Infinity` takes the first branch). -/
noncomputable def baseConfidence : Option ℝ → ℝ
  | none => 0.98
  | some minDist =>
    if minDist ≥ 0.1 then 0.98
    else if minDist ≥ 0.05 then 0.88 + (minDist - 0.05) / 0.05 * 0.10
    else if minDist ≥ 0.01 then 0.75 + (minDist - 0.01) / 0.04 * 0.13
    else 0.70 + minDist / 0.01 * 0.05

/-- `calculateConfidence(point, polygon, holes, candidateCount)`. -/
noncomputable def calculateConfidence (point : Pt) (polygon : Ring)
    (holes : List Ring) (candidateCount : Nat) : ℝ :=
  let md := minDistAll point polygon holes
  let base := baseConfidence md
  let base :=
    if candidateCount > 1 then
      base - min 0.2 (((candidateCount : ℝ) - 1) * 0.05)
    else
      base
  max 0.5 (min 1.0 base)

/-! ## Data store (src/data/loader.ts, post-load view) -/

/-- `CountryMetadata` (src/data/loader.ts). -/
structure CountryMetadata where
  name : String
  iso2 : String
  iso3 : String
  continent : String
  timezone : String
  deriving DecidableEq, Repr

/-- `PolygonData`: a single exterior or, for multi-polygons, a list of
exteriors; optional fields are `Option` (JS `undefined` = `none`). -/
structure PolygonData where
  exterior : Option Ring
  holes : Option (List Ring)
  multi : Bool
  exteriors : Option (List Ring)
  deriving DecidableEq, Repr

/-- The three loaded tables of a `DataLoader`, with JS-object key
enumeration order modelled by list order. -/
structure GeoStore where
  geohashIndex : List (String × List Nat)
  polygons : List (Nat × PolygonData)
  metadata : List (Nat × CountryMetadata)

/-- `s.substring(0, n)`. -/
def strTake (s : String) (n : Nat) : String := ⟨s.toList.take n⟩

/-- The prefix-fallback loop of `getCandidateCountries`: try prefix
lengths from the full length down to 1, stopping at the first present
key (an empty candidate list under a present key still stops the loop,
as in the source where `if (index[prefix])` tests key presence). -/
def prefixLookup (index : List (String × List Nat)) (geohash : String) : List Nat :=
  match ((List.range geohash.length).reverse.map (fun k => k + 1)).findSome?
      (fun len => lookupStr index (strTake geohash len)) with
  | some v => v
  | none => []

/-- `getCandidateCountries(geohash)`: exact lookup, prefix fallback,
then deduplication (`Array.from(new Set(...))` keeps first occurrences). -/
def getCandidateCountries (store : GeoStore) (geohash : String) : List Nat :=
  let candidates := (lookupStr store.geohashIndex geohash).getD []
  let candidates :=
    if candidates.length = 0 then prefixLookup store.geohashIndex geohash
    else candidates
  candidates.eraseDups

/-! ## Forward resolver (src/resolver/index.ts) -/

/-- `ResolutionResult`. -/
structure ResolutionResult where
  countryId : Option Nat
  countryName : Option String
  iso2 : Option String
  iso3 : Option String
  continent : Option String
  timezone : Option String
  confidence : ℝ

/-- The "no match" result (country `null`, confidence `0.0`). -/
def noMatchResult : ResolutionResult :=
  ⟨none, none, none, none, none, none, 0⟩

/-- The exterior rings tested for a candidate: `exteriors` when the
`multi` flag is set and present, else the single `exterior` if present. -/
def exteriorsOf (pd : PolygonData) : List Ring :=
  if pd.multi ∧ pd.exteriors.isSome then
    pd.exteriors.getD []
  else
    match pd.exterior with
    | some e => [e]
    | none => []

/-- The hole rings passed to the point-in-polygon test: missing holes
become `[]`, and empty rings are dropped (`if (... hole.length > 0)`). -/
def holesOf (pd : PolygonData) : List Ring :=
  (pd.holes.getD []).filter (fun hole => hole.length > 0)

/-- The first exterior of `pd` that passes
`pointInPolygonWithHoles` (empty exteriors are skipped; the loop
`break`s at the first hit). -/
def firstMatchingExterior (point : Pt) (pd : PolygonData) : Option Ring :=
  (exteriorsOf pd).find?
    (fun ext => ext.length ≠ 0 && pointInPolygonWithHoles point ext (holesOf pd))

/-- Step 4 of `resolve`: test every candidate, recording
`(countryId, confidence)` with `candidateCount = candidates.length`;
candidates without polygon data are skipped. -/
noncomputable def candidateMatches (store : GeoStore) (point : Pt)
    (candidates : List Nat) : List (Nat × ℝ) :=
  candidates.filterMap fun countryId =>
    match lookupKey store.polygons countryId with
    | none => none
    | some pd =>
      (firstMatchingExterior point pd).map fun ext =>
        (countryId, calculateConfidence point ext (holesOf pd) candidates.length)

/-- Step 5 of `resolve`: the exhaustive fallback over all countries in
the metadata table that are not already candidates, scoring with
`candidateCount = 1` and discounting by `0.95`. -/
noncomputable def fallbackMatches (store : GeoStore) (point : Pt)
    (candidates : List Nat) : List (Nat × ℝ) :=
  store.metadata.filterMap fun entry =>
    if candidates.contains entry.1 then
      none
    else
      match lookupKey store.polygons entry.1 with
      | none => none
      | some pd =>
        (firstMatchingExterior point pd).map fun ext =>
          (entry.1, calculateConfidence point ext (holesOf pd) 1 * 0.95)

/-- The matches list `resolve` finally ranks: the candidate matches,
or — when those are empty — the fallback matches. -/
noncomputable def resolveMatches (store : GeoStore) (point : Pt)
    (candidates : List Nat) : List (Nat × ℝ) :=
  let found := candidateMatches store point candidates
  if found.length = 0 then fallbackMatches store point candidates else found

open Classical in
/-- `matches.sort((a, b) => b.confidence - a.confidence)[0]`: the stable
descending sort makes this the first element of maximal confidence. -/
noncomputable def bestMatch : List (Nat × ℝ) → Option (Nat × ℝ)
  | [] => none
  | m :: ms => some (ms.foldl (fun acc x => if x.2 > acc.2 then x else acc) m)

/-- The candidate set after the fallback ladder (steps 2, 3, 3b, 3c of
`resolve`): primary geohash lookup, 8-neighbor union, extended
(neighbors-of-neighbors) union, then all metadata keys. -/
noncomputable def resolveCandidates (store : GeoStore) (geohash : String) :
    Except String (List Nat) := do
  let c1 := getCandidateCountries store geohash
  let c2 ←
    if c1.length = 0 then do
      let neighbors ← getNeighbors geohash
      pure (neighbors.flatMap (getCandidateCountries store)).eraseDups
    else
      pure c1
  let c3 ←
    if c2.length = 0 then do
      let neighbors ← getNeighbors geohash
      let extended ← neighbors.foldlM
        (fun acc neighborHash => do
          let more ← getNeighbors neighborHash
          pure (acc ++ neighborHash :: more))
        ([] : List String)
      pure (((extended.eraseDups.filter (fun h => h ≠ geohash)).flatMap
        (getCandidateCountries store)).eraseDups)
    else
      pure c2
  if c3.length = 0 then
    pure (store.metadata.map Prod.fst)
  else
    pure c3

/-- `resolve(lat, lon)` over a loaded store: encode, build the candidate
set, rank the matches, attach metadata.  A missing metadata record for
the selected country is the fatal inconsistency error of the source. -/
noncomputable def resolve (store : GeoStore) (lat lon : ℚ) :
    Except String ResolutionResult := do
  let geohash ← encode lat lon 6
  let candidates ← resolveCandidates store geohash
  if candidates.length = 0 then
    pure noMatchResult
  else
    match bestMatch (resolveMatches store (lat, lon) candidates) with
    | none => pure noMatchResult
    | some best =>
      match lookupKey store.metadata best.1 with
      | none => throw "Metadata not found for country ID"
      | some md =>
        pure ⟨some best.1, some md.name, some md.iso2, some md.iso3,
              some md.continent, some md.timezone, best.2⟩

/-! ## Reverse resolver (src/resolver/reverse.ts) -/

/-- `normalizeCountryName`: trim, lowercase, then map `_` and `-` to
spaces. -/
def normalizeCountryName (name : String) : String :=
  ⟨(((trimChars name.toList).map Char.toLower).map
      (fun c => if c = '_' then ' ' else c)).map
    (fun c => if c = '-' then ' ' else c)⟩

/-- The per-record exact test of the first loop of
`findCountryByNameOrIso`: ISO2, then ISO3, then exact normalized name. -/
def exactRecordMatch (countryInput : String) (meta : CountryMetadata) : Bool :=
  jsUpper meta.iso2 == jsUpper (jsTrim countryInput) ||
  jsUpper meta.iso3 == jsUpper (jsTrim countryInput) ||
  normalizeCountryName meta.name == normalizeCountryName countryInput

/-- The per-record test of the second (partial-match) loop: the
normalized input contains the normalized name or vice versa. -/
def partialRecordMatch (countryInput : String) (meta : CountryMetadata) : Bool :=
  hasSub (normalizeCountryName countryInput).toList (normalizeCountryName meta.name).toList ||
  hasSub (normalizeCountryName meta.name).toList (normalizeCountryName countryInput).toList

/-- `findCountryByNameOrIso`: one pass over all records testing the
exact criteria, then a second pass testing substring containment. -/
def findCountryByNameOrIso (countryInput : String)
    (metadata : List (Nat × CountryMetadata)) : Option (Nat × CountryMetadata) :=
  match metadata.find? (fun entry => exactRecordMatch countryInput entry.2) with
  | some r => some r
  | none => metadata.find? (fun entry => partialRecordMatch countryInput entry.2)

/-- The lookup stage of `resolveByCountry`: a `null` match becomes the
`Country not found` error. -/
def resolveByCountryLookup (countryInput : String)
    (metadata : List (Nat × CountryMetadata)) : Except String (Nat × CountryMetadata) :=
  match findCountryByNameOrIso countryInput metadata with
  | none => .error "Country not found"
  | some r => .ok r

/-! ## Spec-side reference definitions (written from the specification's
wording, for the refinement claims) -/

/-- Spec reference, C4 step 1: the minimum of `distanceToPolygonEdge`
over the exterior and every hole. -/
noncomputable def specMinDist (point : Pt) (exterior : Ring) (holes : List Ring) : Option ℝ :=
  ((exterior :: holes).map (distanceToPolygonEdge point)).foldl optMin none

/-- Spec reference, C4 step 2: the piecewise-linear base confidence with
the intervals exactly as the claim lists them (`none` = infinite
distance falls in the `d ≥ 0.1` band). -/
noncomputable def specBaseConfidence : Option ℝ → ℝ
  | none => 0.98
  | some d =>
    if d ≥ 0.1 then 0.98
    else if 0.05 ≤ d ∧ d < 0.1 then 0.88 + (d - 0.05) / 0.05 * 0.10
    else if 0.01 ≤ d ∧ d < 0.05 then 0.75 + (d - 0.01) / 0.04 * 0.13
    else 0.70 + d / 0.01 * 0.05

/-- Spec reference, C4: base confidence from the minimum distance,
ambiguity penalty for `candidateCount > 1`, clamp to `[0.5, 1.0]`. -/
noncomputable def confidenceSpec (point : Pt) (exterior : Ring)
    (holes : List Ring) (candidateCount : Nat) : ℝ :=
  let base := specBaseConfidence (specMinDist point exterior holes)
  let penalized :=
    if candidateCount > 1 then
      base - min 0.2 (((candidateCount : ℝ) - 1) * 0.05)
    else
      base
  max 0.5 (min 1.0 penalized)

/-- Order on edge distances where `none` (`Infinity`) is the top
element: used to phrase "the minimum distance increases". -/
def distLE : Option ℝ → Option ℝ → Prop
  | _, none => True
  | none, some _ => False
  | some x, some y => x ≤ y

/-- Spec reference, C2: the search order the specification describes —
an exact-ISO2 pass over all records, then exact ISO3, then exact
normalized name, then substring containment. -/
def specTieredFind (countryInput : String)
    (metadata : List (Nat × CountryMetadata)) : Option (Nat × CountryMetadata) :=
  (metadata.find? (fun e => jsUpper e.2.iso2 == jsUpper (jsTrim countryInput))).orElse fun _ =>
  (metadata.find? (fun e => jsUpper e.2.iso3 == jsUpper (jsTrim countryInput))).orElse fun _ =>
  (metadata.find? (fun e =>
      normalizeCountryName e.2.name == normalizeCountryName countryInput)).orElse fun _ =>
  metadata.find? (fun e => partialRecordMatch countryInput e.2)

/-! ## Concrete fixtures used by witnesses and counterexamples -/

/-- Two-record metadata table where an earlier record matches the input
`"aa"` by exact name while a later record matches it by exact ISO2. -/
def fixtureMetaC2 : List (Nat × CountryMetadata) :=
  [(1, ⟨"aa", "QQ", "QQQ", "Europe", "Q/Q"⟩),
   (2, ⟨"bb", "AA", "AAB", "Europe", "A/A"⟩)]

/-- Two-record metadata table whose second record has empty ISO codes
(the JS `meta.iso2 || ''` default for missing fields). -/
def fixtureMetaC10 : List (Nat × CountryMetadata) :=
  [(1, ⟨"France", "FR", "FRA", "Europe", "Europe/Paris"⟩),
   (2, ⟨"Bar", "", "", "Europe", "E/B"⟩)]

/-- Metadata table with all identifier fields non-empty. -/
def fixtureMetaFull : List (Nat × CountryMetadata) :=
  [(1, ⟨"France", "FR", "FRA", "Europe", "Europe/Paris"⟩),
   (2, ⟨"Spain", "ES", "ESP", "Europe", "Europe/Madrid"⟩)]

/-- A store whose index knows the cell of the origin but whose polygon
table is empty: `resolve 0 0` finds a candidate, matches nothing, and
returns the no-match result. -/
def fixtureStoreNoMatch : GeoStore :=
  { geohashIndex := [("h00000", [1])]
    polygons := []
    metadata := [(1, ⟨"Atlantis", "AT", "ATL", "Oceania", "U/U"⟩)] }

/-- A triangle far away from the origin. -/
def farTriangle : Ring := [(10, 10), (10, 11), (11, 11)]

/-- A square strictly containing the origin. -/
def originSquare : Ring := [(-1, -1), (-1, 1), (1, 1), (1, -1)]

/-- A store where country 1 (the only geohash candidate at the origin)
does not contain the origin but country 2 does: exercises the
exhaustive fallback with its 0.95 discount. -/
def fixtureStoreFallback : GeoStore :=
  { geohashIndex := [("h00000", [1])]
    polygons := [(1, ⟨some farTriangle, none, false, none⟩),
                 (2, ⟨some originSquare, none, false, none⟩)]
    metadata := [(1, ⟨"Farland", "FA", "FAR", "Asia", "F/F"⟩),
                 (2, ⟨"Origin", "OR", "ORI", "Africa", "O/O"⟩)] }

/-! ## Supporting lemmas -/

lemma optMin_none (b : Option ℝ) : optMin none b = b := rfl

lemma specMinDist_eq_minDistAll (p : Pt) (e : Ring) (hs : List Ring) :
    specMinDist p e hs = minDistAll p e hs := by
  simp only [specMinDist, minDistAll, List.map_cons, List.foldl_cons, optMin_none,
    List.foldl_map]

lemma specBaseConfidence_eq (d : Option ℝ) :
    specBaseConfidence d = baseConfidence d := by
  cases d with
  | none => rfl
  | some x =>
    simp only [specBaseConfidence, baseConfidence]
    by_cases hA : x ≥ 0.1
    · rw [if_pos hA, if_pos hA]
    · by_cases hB : x ≥ 0.05
      · rw [if_neg hA, if_neg hA, if_pos hB,
          if_pos (⟨hB, lt_of_not_ge hA⟩ : (0.05 : ℝ) ≤ x ∧ x < 0.1)]
      · by_cases hC : x ≥ 0.01
        · rw [if_neg hA, if_neg hA,
            if_neg (fun hand => hB hand.1), if_neg hB, if_pos hC,
            if_pos (⟨hC, lt_of_not_ge hB⟩ : (0.01 : ℝ) ≤ x ∧ x < 0.05)]
        · rw [if_neg hA, if_neg hA,
            if_neg (fun hand => hB hand.1), if_neg hB,
            if_neg (fun hand => hC hand.1), if_neg hC]

lemma baseConfidence_le (d : Option ℝ) : baseConfidence d ≤ 0.98 := by
  cases d with
  | none => exact le_refl _
  | some x =>
    simp only [baseConfidence]
    split_ifs with h1 h2 h3
    · norm_num
    · ring_nf; linarith
    · ring_nf; linarith
    · ring_nf; linarith

lemma baseConfidence_mono {d1 d2 : Option ℝ} (h : distLE d1 d2) :
    baseConfidence d1 ≤ baseConfidence d2 := by
  cases d1 with
  | none =>
    cases d2 with
    | none => exact le_refl _
    | some y => exact absurd h (by simp [distLE])
  | some x =>
    cases d2 with
    | none => exact baseConfidence_le (some x)
    | some y =>
      have hxy : x ≤ y := h
      simp only [baseConfidence]
      split_ifs <;> ring_nf <;> linarith

/-! ## C8 — point-in-polygon with holes -/

/-- C8.  `pointInPolygonWithHoles(point, exterior, holes)` is true iff
the point is inside the exterior and inside none of the holes; and
`pointInPolygon` fails closed (false) on any ring with fewer than 3
points. -/
theorem c8_pip_with_holes (p : Pt) (exterior ring : Ring) (holes : List Ring)
    (hring : ring.length < 3) :
    (pointInPolygonWithHoles p exterior holes = true ↔
      (pointInPolygon p exterior = true ∧
        ∀ hole ∈ holes, pointInPolygon p hole = false)) ∧
    pointInPolygon p ring = false := by
  constructor
  · simp only [pointInPolygonWithHoles]
    cases hext : pointInPolygon p exterior with
    | false => simp
    | true =>
      by_cases hany : holes.any (fun hole => pointInPolygon p hole) = true
      · rcases List.any_eq_true.mp hany with ⟨hole, hmem, hhole⟩
        simp only [Bool.not_true, Bool.false_eq_true, if_false, hany, if_true]
        constructor
        · intro hfalse; exact absurd hfalse (by simp)
        · intro ⟨_, hall⟩; exact absurd hhole (by simp [hall hole hmem])
      · have hall : ∀ hole ∈ holes, pointInPolygon p hole = false := by
          intro hole hmem
          by_contra hne
          exact hany (List.any_eq_true.mpr ⟨hole, hmem, by simpa using hne⟩)
        simp only [hany, if_false, Bool.not_true, Bool.false_eq_true, hext, true_and,
          iff_true_intro hall]
  · simp [pointInPolygon, hring]

/-- C8 witness: a concrete instantiation (unit square, one faraway
hole, and the degenerate 2-point ring). -/
theorem c8_pip_with_holes_witness :
    (pointInPolygonWithHoles (1/2, 1/2) [(0,0),(0,1),(1,1),(1,0)] [farTriangle] = true ↔
      (pointInPolygon (1/2, 1/2) [(0,0),(0,1),(1,1),(1,0)] = true ∧
        ∀ hole ∈ [farTriangle], pointInPolygon (1/2, 1/2) hole = false)) ∧
    pointInPolygon (1/2, 1/2) [(0,0),(0,1)] = false :=
  c8_pip_with_holes (1/2, 1/2) [(0,0),(0,1),(1,1),(1,0)] [(0,0),(0,1)] [farTriangle]
    (by decide)

/-! ## C4 — the confidence scorer equals the spec's reference scorer -/

/-- C4.  `calculateConfidence` coincides with the reference function
assembled from the specification's wording (`confidenceSpec`): minimum
edge distance over exterior and holes, the four-band piecewise-linear
base score, the ambiguity penalty, and the final clamp to [0.5, 1.0]. -/
theorem c4_confidence_matches_spec (p : Pt) (exterior : Ring) (holes : List Ring)
    (candidateCount : Nat) :
    calculateConfidence p exterior holes candidateCount =
      confidenceSpec p exterior holes candidateCount := by
  simp only [calculateConfidence, confidenceSpec, specMinDist_eq_minDistAll,
    specBaseConfidence_eq]

/-! ## C5 — monotonicity of the confidence scorer -/

/-- C5.  With the candidate count fixed, the confidence is monotone in
the minimum edge distance (distances ordered by `distLE`, `Infinity` on
top), and for the same geometry two candidates score no higher than
one. -/
theorem c5_confidence_monotone (p1 p2 q : Pt) (e1 e2 e : Ring)
    (hs1 hs2 hs : List Ring) (cc : Nat)
    (hle : distLE (minDistAll p1 e1 hs1) (minDistAll p2 e2 hs2)) :
    calculateConfidence p1 e1 hs1 cc ≤ calculateConfidence p2 e2 hs2 cc ∧
    calculateConfidence q e hs 2 ≤ calculateConfidence q e hs 1 := by
  constructor
  · have hb := baseConfidence_mono hle
    simp only [calculateConfidence]
    refine max_le_max (le_refl _) (min_le_min (le_refl _) ?_)
    split_ifs <;> linarith
  · simp only [calculateConfidence]
    refine max_le_max (le_refl _) (min_le_min (le_refl _) ?_)
    have h2 : ((2 : Nat) > 1) = True := by simp
    have h1 : ((1 : Nat) > 1) = False := by simp
    rw [if_pos (by norm_num : (2 : Nat) > 1), if_neg (by norm_num : ¬ (1 : Nat) > 1)]
    have hpen : (0 : ℝ) ≤ min 0.2 ((((2 : Nat) : ℝ) - 1) * 0.05) := by
      norm_num
    linarith

/-- C5 witness: the same square-free geometry at distance 0 versus
distance 3 from the single-vertex ring at the origin. -/
theorem c5_confidence_monotone_witness :
    calculateConfidence (0, 0) [(0, 0)] [] 1 ≤ calculateConfidence (0, 3) [(0, 0)] [] 1 ∧
    calculateConfidence (0, 0) [(0, 0)] [] 2 ≤ calculateConfidence (0, 0) [(0, 0)] [] 1 :=
  c5_confidence_monotone (0, 0) (0, 3) (0, 0) [(0, 0)] [(0, 0)] [(0, 0)] [] [] [] 1
    (by
      show distLE (minDistAll (0, 0) [(0, 0)] []) (minDistAll (0, 3) [(0, 0)] [])
      simp only [minDistAll, List.foldl_nil, distanceToPolygonEdge, edgePairs,
        List.getLastD, List.zip_cons_cons, List.zip_nil_right, List.map_cons,
        List.map_nil, List.min?, distLE]
      norm_num [segDistSq])

/-! ## C1 — geohash round-trip -/

/-- C1 (code bug).  At latitude 45, longitude 45, precision 1 the
encoder produces `"w"`, but the decoded bounding box of `"w"` is
latitude `[0, 45]` × longitude `[90, 135]`, which does not contain the
input longitude 45: the round-trip containment property fails (the
encoder ORs longitude and latitude bits into the same character
position via `Math.floor(i / 2)`, so `decode` does not invert it). -/
theorem c1_roundtrip_violation :
    encode 45 45 1 = .ok "w" ∧
    decode "w" = .ok ⟨45 / 2, 225 / 2, (0, 45), (90, 135)⟩ ∧
    ¬((90 : ℚ) ≤ 45 ∧ (45 : ℚ) ≤ 135) := by
  with_unfolding_all decide

/-! ## C2 — reverse-lookup search order -/

/-- C2 counterexample.  In `fixtureMetaC2` the second record's ISO2
(`"AA"`) exactly matches the input `"aa"`, yet `findCountryByNameOrIso`
returns the first record (an exact-name match): the ISO2 tier is not
tried across all records first, contradicting the claimed search
order. -/
theorem c2_counterexample :
    findCountryByNameOrIso "aa" fixtureMetaC2 =
      some (1, ⟨"aa", "QQ", "QQQ", "Europe", "Q/Q"⟩) ∧
    jsUpper (⟨"bb", "AA", "AAB", "Europe", "A/A"⟩ : CountryMetadata).iso2 =
      jsUpper (jsTrim "aa") ∧
    ((1 : Nat), (⟨"aa", "QQ", "QQQ", "Europe", "Q/Q"⟩ : CountryMetadata)) ≠
      (2, ⟨"bb", "AA", "AAB", "Europe", "A/A"⟩) := by
  with_unfolding_all decide

/-- C2 (amended).  `findCountryByNameOrIso` makes a single pass
returning the first record whose ISO2, ISO3, or normalized name exactly
matches, followed by a substring-containment pass; consequently any
exact match — of whichever field — beats substring matches, but a later
record's exact ISO2 match does not beat an earlier record's exact name
match. -/
theorem c2_exact_pass_then_substring (countryInput : String)
    (metadata : List (Nat × CountryMetadata)) :
    findCountryByNameOrIso countryInput metadata =
      (metadata.find? (fun e => exactRecordMatch countryInput e.2)).orElse
        (fun _ => metadata.find? (fun e => partialRecordMatch countryInput e.2)) ∧
    (∀ r ∈ metadata, exactRecordMatch countryInput r.2 = true →
      ∃ r', findCountryByNameOrIso countryInput metadata = some r' ∧
        exactRecordMatch countryInput r'.2 = true) := by
  constructor
  · simp only [findCountryByNameOrIso]
    cases metadata.find? (fun e => exactRecordMatch countryInput e.2) <;> rfl
  · intro r hmem hexact
    have hsome : (metadata.find? (fun e => exactRecordMatch countryInput e.2)).isSome := by
      rw [List.find?_isSome]
      exact ⟨r, hmem, hexact⟩
    obtain ⟨r', hr'⟩ := Option.isSome_iff_exists.mp hsome
    have hp := List.find?_some hr'
    exact ⟨r', by simp only [findCountryByNameOrIso, hr'], by simpa using hp⟩

/-- C2 witness for the amended theorem: in `fixtureMetaC2` the input
`"aa"` has an exact match, so the result is an exactly-matching
record. -/
theorem c2_exact_pass_then_substring_witness :
    ∃ r', findCountryByNameOrIso "aa" fixtureMetaC2 = some r' ∧
      exactRecordMatch "aa" r'.2 = true :=
  (c2_exact_pass_then_substring "aa" fixtureMetaC2).2
    (2, ⟨"bb", "AA", "AAB", "Europe", "A/A"⟩)
    (by with_unfolding_all decide) (by with_unfolding_all decide)

/-! ## C10 — empty reverse-lookup identifier -/

/-- C10 counterexample.  `fixtureMetaC10`'s first record has a
non-empty name, yet with the whitespace-only input `"  "` the lookup
returns the *second* record — its empty ISO2 string matches the
trimmed-empty input in the exact pass — not the first record via the
substring tier as the claim predicts. -/
theorem c10_counterexample :
    findCountryByNameOrIso "  " fixtureMetaC10 =
      some (2, ⟨"Bar", "", "", "Europe", "E/B"⟩) ∧
    (⟨"France", "FR", "FRA", "Europe", "Europe/Paris"⟩ : CountryMetadata).name ≠ "" ∧
    fixtureMetaC10.head? =
      some (1, ⟨"France", "FR", "FRA", "Europe", "Europe/Paris"⟩) ∧
    some ((2 : Nat), (⟨"Bar", "", "", "Europe", "E/B"⟩ : CountryMetadata)) ≠
      fixtureMetaC10.head? := by
  with_unfolding_all decide

lemma leadMatch_nil (l : List Char) : leadMatch l [] = true := by
  cases l <;> rfl

lemma hasSub_nil (l : List Char) : hasSub l [] = true := by
  cases l <;> simp [hasSub, leadMatch_nil]

/-- C10 (amended).  For a whitespace-only identifier over any non-empty
metadata table, `resolveByCountry`'s not-found error is never raised
(the substring pass matches every record, the empty needle being
contained in every name, so some record is always found).  When
additionally every record's ISO2, ISO3 and normalized name are
non-empty, the exact pass finds nothing and the substring pass matches
the first record enumerated. -/
theorem c10_whitespace_matches_first (countryInput : String)
    (metadata : List (Nat × CountryMetadata))
    (hin : jsTrim countryInput = "")
    (hne : metadata ≠ []) :
    (∃ r, resolveByCountryLookup countryInput metadata = .ok r) ∧
    ((∀ r ∈ metadata, jsUpper r.2.iso2 ≠ "" ∧ jsUpper r.2.iso3 ≠ "" ∧
        normalizeCountryName r.2.name ≠ "") →
      findCountryByNameOrIso countryInput metadata = metadata.head?) := by
  have htrim : trimChars countryInput.toList = [] := congrArg String.data hin
  have htrim' : trimChars countryInput.data = [] := htrim
  have hnorm : normalizeCountryName countryInput = "" := by
    simp [normalizeCountryName, htrim']
  have hupper : jsUpper (jsTrim countryInput) = "" := by
    rw [hin]; rfl
  obtain ⟨e, es, rfl⟩ : ∃ e es, metadata = e :: es := by
    cases metadata with
    | nil => exact absurd rfl hne
    | cons e es => exact ⟨e, es, rfl⟩
  have hpart : partialRecordMatch countryInput e.2 = true := by
    simp [partialRecordMatch, hnorm, hasSub_nil]
  constructor
  · have hsome : (findCountryByNameOrIso countryInput (e :: es)).isSome := by
      rw [findCountryByNameOrIso]
      cases hfe : (e :: es).find? (fun x => exactRecordMatch countryInput x.2) with
      | some r => simp
      | none => simp [List.find?_cons, hpart]
    obtain ⟨r, hr⟩ := Option.isSome_iff_exists.mp hsome
    exact ⟨r, by rw [resolveByCountryLookup, hr]⟩
  · intro hids
    have hexact : (e :: es).find? (fun x => exactRecordMatch countryInput x.2) = none := by
      rw [List.find?_eq_none]
      intro x hmem
      obtain ⟨h2, h3, hname⟩ := hids x hmem
      simp only [exactRecordMatch, hupper, hnorm, Bool.or_eq_true, beq_iff_eq]
      push_neg
      exact ⟨⟨h2, h3⟩, hname⟩
    simp [findCountryByNameOrIso, hexact, List.find?_cons, hpart]

/-- C10 witness for the amended theorem: whitespace input over the
fully-populated two-record table raises no not-found error, and — all
its identifier fields being non-empty — returns the first record. -/
theorem c10_whitespace_matches_first_witness :
    (∃ r, resolveByCountryLookup "  " fixtureMetaFull = .ok r) ∧
    ((∀ r ∈ fixtureMetaFull, jsUpper r.2.iso2 ≠ "" ∧ jsUpper r.2.iso3 ≠ "" ∧
        normalizeCountryName r.2.name ≠ "") →
      findCountryByNameOrIso "  " fixtureMetaFull = fixtureMetaFull.head?) :=
  c10_whitespace_matches_first "  " fixtureMetaFull
    (by with_unfolding_all decide)
    (by with_unfolding_all decide)

/-! ## Geohash structural lemmas -/

lemma encodeBits_length (lat lon : ℚ) :
    ∀ (fuel i ch : Nat) (latR lonR : ℚ × ℚ),
      (encodeBits lat lon i fuel ch latR lonR).length = (i + fuel) / 5 - i / 5 := by
  intro fuel
  induction fuel with
  | zero =>
    intro i ch latR lonR
    simp [encodeBits]
  | succ n ih =>
    intro i ch latR lonR
    rw [encodeBits]
    rcases encodeStep lat lon i ch latR lonR with ⟨ch', latR', lonR'⟩
    by_cases h5 : (i + 1) % 5 = 0
    · simp only [h5, if_true, List.length_cons, ih]
      omega
    · simp only [h5, if_false, ih]
      omega

lemma encodeRaw_length (lat lon : ℚ) (precision : Nat) :
    (encodeRaw lat lon precision).length = precision := by
  show (encodeBits lat lon 0 (precision * 5) 0 (-90, 90) (-180, 180)).length = precision
  rw [encodeBits_length]
  omega

lemma encodeStep_ch_lt (lat lon : ℚ) (i : Nat) {ch : Nat} (latR lonR : ℚ × ℚ)
    (h : ch < 32) : (encodeStep lat lon i ch latR lonR).1 < 32 := by
  have hshift : (1 <<< (4 - (i / 2) % 5)) < 32 := by
    rw [Nat.shiftLeft_eq, one_mul]
    calc 2 ^ (4 - (i / 2) % 5) ≤ 2 ^ 4 := Nat.pow_le_pow_right (by norm_num) (by omega)
    _ < 32 := by norm_num
  have hlor : ch ||| (1 <<< (4 - (i / 2) % 5)) < 32 :=
    Nat.or_lt_two_pow (n := 5) h hshift
  simp only [encodeStep]
  split_ifs <;> first | exact hlor | exact h

lemma base32Char_mem {ch : Nat} (h : ch < 32) : base32Char ch ∈ base32Chars := by
  have hlen : ch < base32Chars.length := by
    have : base32Chars.length = 32 := by decide
    omega
  rw [base32Char, List.getD_eq_getElem _ _ hlen]
  exact List.getElem_mem hlen

lemma encodeBits_mem (lat lon : ℚ) :
    ∀ (fuel i ch : Nat) (latR lonR : ℚ × ℚ), ch < 32 →
      ∀ c ∈ encodeBits lat lon i fuel ch latR lonR, c ∈ base32Chars := by
  intro fuel
  induction fuel with
  | zero =>
    intro i ch latR lonR _ c hc
    simp [encodeBits] at hc
  | succ n ih =>
    intro i ch latR lonR hch c hc
    rw [encodeBits] at hc
    have hstep := encodeStep_ch_lt lat lon i latR lonR hch
    rcases hstep' : encodeStep lat lon i ch latR lonR with ⟨ch', latR', lonR'⟩
    rw [hstep'] at hc
    rw [hstep'] at hstep
    simp only at hc hstep
    by_cases h5 : (i + 1) % 5 = 0
    · rw [if_pos h5] at hc
      rcases List.mem_cons.mp hc with hc | hc
      · subst hc
        exact base32Char_mem hstep
      · exact ih (i + 1) 0 latR' lonR' (by norm_num) c hc
    · rw [if_neg h5] at hc
      exact ih (i + 1) ch' latR' lonR' hstep c hc

lemma encodeRaw_valid (lat lon : ℚ) (precision : Nat) :
    ∀ c ∈ (encodeRaw lat lon precision).toList, c ∈ base32Chars := by
  intro c hc
  exact encodeBits_mem lat lon (precision * 5) 0 0 (-90, 90) (-180, 180)
    (by norm_num) c hc

lemma encode_ok (lat lon : ℚ) (precision : Nat)
    (h1 : -90 ≤ lat) (h2 : lat ≤ 90) (h3 : -180 ≤ lon) (h4 : lon ≤ 180) :
    encode lat lon precision = .ok (encodeRaw lat lon precision) := by
  rw [encode, if_neg, if_neg]
  · rintro (h | h) <;> linarith
  · rintro (h | h) <;> linarith

/-- Invariant of the decoder state: both ranges are proper. -/
def stInv (st : DecState) : Prop :=
  st.latR.1 < st.latR.2 ∧ st.lonR.1 < st.lonR.2

lemma decodeStep_inv (bit : Nat) {st : DecState} (h : stInv st) :
    stInv (decodeStep bit st) := by
  obtain ⟨hlat, hlon⟩ := h
  simp only [decodeStep, stInv]
  split_ifs <;> constructor <;> simp <;> linarith

lemma decodeChar_inv (idx : Nat) {st : DecState} (h : stInv st) :
    stInv (decodeChar idx st) := by
  simp only [decodeChar, List.foldl_cons, List.foldl_nil]
  exact decodeStep_inv _ (decodeStep_inv _ (decodeStep_inv _ (decodeStep_inv _
    (decodeStep_inv _ h))))

lemma decodeFold_inv :
    ∀ (cs : List Char) (st st' : DecState),
      (cs.foldlM (fun st c =>
        match base32Index c with
        | none => throw "Invalid geohash character"
        | some idx => pure (decodeChar idx st)) st : Except String DecState) = .ok st' →
      stInv st → stInv st' := by
  intro cs
  induction cs with
  | nil =>
    intro st st' h hst
    simp only [List.foldlM_nil] at h
    cases h
    exact hst
  | cons c cs ih =>
    intro st st' h hst
    rw [List.foldlM_cons] at h
    cases hidx : base32Index c with
    | none =>
      rw [hidx] at h
      exact Except.noConfusion h
    | some idx =>
      rw [hidx] at h
      exact ih _ _ h (decodeChar_inv idx hst)

lemma decode_ranges_lt {g : String} {d : DecodeRes} (h : decode g = .ok d) :
    d.latRange.1 < d.latRange.2 ∧ d.lonRange.1 < d.lonRange.2 := by
  by_cases hg : g = ""
  · rw [decode] at h
    simp [hg, throw, throwThe, MonadExceptOf.throw, Except.bind] at h
  · rw [decode] at h
    simp only [hg, if_neg] at h
    cases hfold : (g.toList.foldlM (fun st c =>
        match base32Index c with
        | none => throw "Invalid geohash character"
        | some idx => pure (decodeChar idx st))
      (⟨true, (-90, 90), (-180, 180)⟩ : DecState) : Except String DecState) with
    | error e =>
      rw [hfold] at h
      exact absurd h (by simp [Except.bind])
    | ok st =>
      rw [hfold] at h
      have hinv : stInv st :=
        decodeFold_inv g.toList _ st hfold ⟨by norm_num, by norm_num⟩
      simp only [Except.bind, pure, Except.pure, Except.ok.injEq] at h
      cases h
      exact hinv

lemma mapM_ok {α β : Type} (f : α → Except String β) (P : β → Prop) :
    ∀ (l : List α), (∀ a ∈ l, ∃ b, f a = .ok b ∧ P b) →
      ∃ L, l.mapM f = .ok L ∧ L.length = l.length ∧ ∀ b ∈ L, P b := by
  intro l
  induction l with
  | nil =>
    intro _
    exact ⟨[], rfl, rfl, by simp⟩
  | cons a l ih =>
    intro hall
    obtain ⟨b, hb, hPb⟩ := hall a (List.mem_cons_self a l)
    obtain ⟨L, hL, hlen, hPL⟩ := ih (fun x hx => hall x (List.mem_cons_of_mem _ hx))
    refine ⟨b :: L, ?_, by simp [hlen], ?_⟩
    · rw [List.mapM_cons, hb, hL]
      rfl
    · intro x hx
      rcases List.mem_cons.mp hx with rfl | hx
      · exact hPb
      · exact hPL x hx

lemma clampQ_mem (lo hi x : ℚ) (h : lo ≤ hi) :
    lo ≤ max lo (min hi x) ∧ max lo (min hi x) ≤ hi :=
  ⟨le_max_left _ _, max_le h (min_le_left _ _)⟩

lemma getNeighbors_ok {g : String} {d : DecodeRes} (h : decode g = .ok d) :
    ∃ L, getNeighbors g = .ok L ∧ L.length = 8 ∧
      ∀ s ∈ L, ∃ lat lon, s = encodeRaw lat lon g.length := by
  obtain ⟨hlat, hlon⟩ := decode_ranges_lt h
  have hls : ¬(d.latRange.2 - d.latRange.1 = 0) := sub_ne_zero.mpr hlat.ne'
  have hlo : ¬(d.lonRange.2 - d.lonRange.1 = 0) := sub_ne_zero.mpr hlon.ne'
  have hls' : ¬(d.latRange.1 - d.latRange.2 = 0) := sub_ne_zero.mpr hlat.ne
  have hlo' : ¬(d.lonRange.1 - d.lonRange.2 = 0) := sub_ne_zero.mpr hlon.ne
  have hg : getNeighbors g =
      (([-(d.latRange.2 - d.latRange.1), 0, d.latRange.2 - d.latRange.1] : List ℚ).flatMap
        (fun dlat =>
          ([-(d.lonRange.2 - d.lonRange.1), 0, d.lonRange.2 - d.lonRange.1] : List ℚ).filterMap
            (fun dlon => if dlat = 0 ∧ dlon = 0 then none else some (dlat, dlon)))).mapM
        (fun o =>
          encode (max (-90) (min 90 (d.lat + o.1))) (max (-180) (min 180 (d.lon + o.2)))
            g.length) := by
    rw [getNeighbors, h]
    rfl
  have hall : ∀ o ∈ (([-(d.latRange.2 - d.latRange.1), 0,
        d.latRange.2 - d.latRange.1] : List ℚ).flatMap
      (fun dlat =>
        ([-(d.lonRange.2 - d.lonRange.1), 0, d.lonRange.2 - d.lonRange.1] : List ℚ).filterMap
          (fun dlon => if dlat = 0 ∧ dlon = 0 then none else some (dlat, dlon)))),
      ∃ b, (fun o : ℚ × ℚ =>
          encode (max (-90) (min 90 (d.lat + o.1))) (max (-180) (min 180 (d.lon + o.2)))
            g.length) o = .ok b ∧
        (fun s => ∃ lat lon, s = encodeRaw lat lon g.length) b := by
    intro o _
    exact ⟨encodeRaw (max (-90) (min 90 (d.lat + o.1))) (max (-180) (min 180 (d.lon + o.2)))
        g.length,
      encode_ok _ _ _ (clampQ_mem _ _ _ (by norm_num)).1 (clampQ_mem _ _ _ (by norm_num)).2
        (clampQ_mem _ _ _ (by norm_num)).1 (clampQ_mem _ _ _ (by norm_num)).2,
      _, _, rfl⟩
  obtain ⟨L, hL, hlen, hP⟩ := mapM_ok _ _ _ hall
  refine ⟨L, hg.trans hL, ?_, hP⟩
  rw [hlen]
  simp [List.filterMap_cons, hls, hlo, hls', hlo', neg_eq_zero]

/-! ## C3 — neighbor completeness -/

/-- C3 counterexample.  `"0"` is a valid geohash, yet `getNeighbors "0"`
returns `["0","0","4","0","4","8","8","d"]`: eight strings, but with
duplicates (the cell touches the south-west corner of the world, so the
clamped offsets re-encode to the same cells — and `"0"` even contains
itself).  The claimed pairwise distinctness fails. -/
theorem c3_counterexample :
    decode "0" = .ok ⟨-135 / 2, -315 / 2, (-90, -45), (-180, -135)⟩ ∧
    getNeighbors "0" = .ok ["0", "0", "4", "0", "4", "8", "8", "d"] ∧
    ¬(["0", "0", "4", "0", "4", "8", "8", "d"] : List String).Nodup := by
  with_unfolding_all decide

/-- C3 (amended).  For every valid geohash (one that decodes),
`getNeighbors` returns exactly 8 geohash strings, each of the same
length as the input — but they need not be pairwise distinct. -/
theorem c3_eight_neighbors (g : String) (d : DecodeRes) (h : decode g = .ok d) :
    ∃ L, getNeighbors g = .ok L ∧ L.length = 8 ∧ ∀ s ∈ L, s.length = g.length := by
  obtain ⟨L, hok, hlen, hstruct⟩ := getNeighbors_ok h
  refine ⟨L, hok, hlen, fun s hs => ?_⟩
  obtain ⟨lat, lon, rfl⟩ := hstruct s hs
  exact encodeRaw_length lat lon g.length

/-- C3 witness: the geohash `"0"` decodes, so its neighbor list has 8
entries of length 1. -/
theorem c3_eight_neighbors_witness :
    ∃ L, getNeighbors "0" = .ok L ∧ L.length = 8 ∧ ∀ s ∈ L, s.length = "0".length :=
  c3_eight_neighbors "0" ⟨-135 / 2, -315 / 2, (-90, -45), (-180, -135)⟩
    (by with_unfolding_all decide)

/-! ## Resolver control-flow lemmas -/

lemma lookupKey_mem {α : Type} :
    ∀ {l : List (Nat × α)} {k : Nat} {v : α}, lookupKey l k = some v → (k, v) ∈ l := by
  intro l
  induction l with
  | nil => intro k v h; cases h
  | cons e l ih =>
    intro k v h
    rw [lookupKey] at h
    by_cases hk : e.1 = k
    · rw [if_pos hk] at h
      cases h
      simp [← hk]
    · rw [if_neg hk] at h
      exact List.mem_cons_of_mem _ (ih h)

lemma bestMatch_mem : ∀ (l : List (Nat × ℝ)) (m : Nat × ℝ), bestMatch l = some m → m ∈ l := by
  have aux : ∀ (as : List (Nat × ℝ)) (a : Nat × ℝ),
      as.foldl (fun acc x => if x.2 > acc.2 then x else acc) a ∈ a :: as := by
    intro as
    induction as with
    | nil => intro a; simp
    | cons x xs ih =>
      intro a
      rw [List.foldl_cons]
      rcases List.mem_cons.mp (ih (if x.2 > a.2 then x else a)) with hm | hm
      · rw [hm]
        split_ifs <;> simp
      · simp [List.mem_cons_of_mem, hm]
  intro l m h
  cases l with
  | nil => cases h
  | cons a as =>
    rw [bestMatch, Option.some_inj] at h
    rw [← h]
    exact aux as a

lemma base32Index_isSome {c : Char} (h : c ∈ base32Chars) :
    ∃ idx, base32Index c = some idx := by
  have hsome : (base32Chars.findIdx? (fun x => x = c)).isSome := by
    rw [List.findIdx?_isSome, List.any_eq_true]
    exact ⟨c, h, by simp⟩
  exact Option.isSome_iff_exists.mp hsome

lemma decodeFold_ok :
    ∀ (cs : List Char), (∀ c ∈ cs, c ∈ base32Chars) → ∀ st : DecState,
      ∃ st', (cs.foldlM (fun st c =>
        match base32Index c with
        | none => throw "Invalid geohash character"
        | some idx => pure (decodeChar idx st)) st : Except String DecState) = .ok st' := by
  intro cs
  induction cs with
  | nil => intro _ st; exact ⟨st, rfl⟩
  | cons c cs ih =>
    intro hval st
    obtain ⟨idx, hidx⟩ := base32Index_isSome (hval c (List.mem_cons_self c cs))
    obtain ⟨st', hst'⟩ := ih (fun x hx => hval x (List.mem_cons_of_mem _ hx))
      (decodeChar idx st)
    refine ⟨st', ?_⟩
    rw [List.foldlM_cons, hidx]
    exact hst'

lemma decode_ok_of_valid {g : String} (hne : ¬(g = ""))
    (hval : ∀ c ∈ g.toList, c ∈ base32Chars) : ∃ d, decode g = .ok d := by
  obtain ⟨st', hst'⟩ := decodeFold_ok g.toList hval ⟨true, (-90, 90), (-180, 180)⟩
  refine ⟨⟨(st'.latR.1 + st'.latR.2) / 2, (st'.lonR.1 + st'.lonR.2) / 2,
    st'.latR, st'.lonR⟩, ?_⟩
  rw [decode, if_neg hne, hst']
  rfl

lemma encodeRaw_ne_empty (lat lon : ℚ) {p : Nat} (hp : p ≠ 0) :
    ¬(encodeRaw lat lon p = "") := by
  intro h
  have hlen : (encodeRaw lat lon p).length = p := encodeRaw_length lat lon p
  rw [h] at hlen
  exact hp hlen.symm

lemma decode_encodeRaw_ok (lat lon : ℚ) {p : Nat} (hp : p ≠ 0) :
    ∃ d, decode (encodeRaw lat lon p) = .ok d :=
  decode_ok_of_valid (encodeRaw_ne_empty lat lon hp) (encodeRaw_valid lat lon p)

lemma neighbors_fold_ok :
    ∀ (L : List String), (∀ s ∈ L, ∃ d, decode s = .ok d) →
      ∀ acc : List String,
        ∃ out, (L.foldlM (fun acc neighborHash => do
          let more ← getNeighbors neighborHash
          pure (acc ++ neighborHash :: more)) acc : Except String (List String)) = .ok out := by
  intro L
  induction L with
  | nil => intro _ acc; exact ⟨acc, rfl⟩
  | cons s L ih =>
    intro hdec acc
    obtain ⟨d, hd⟩ := hdec s (List.mem_cons_self s L)
    obtain ⟨ns, hns, _, _⟩ := getNeighbors_ok hd
    obtain ⟨out, hout⟩ := ih (fun x hx => hdec x (List.mem_cons_of_mem _ hx))
      (acc ++ s :: ns)
    refine ⟨out, ?_⟩
    rw [List.foldlM_cons, hns]
    exact hout

lemma exceptBind_ok {α β : Type} (a : α) (f : α → Except String β) :
    (Except.ok a >>= f) = f a := rfl

lemma exceptBind_error {α β : Type} (e : String) (f : α → Except String β) :
    ((Except.error e : Except String α) >>= f) = Except.error e := rfl

lemma exceptPure {α : Type} (a : α) : (pure a : Except String α) = Except.ok a := rfl

lemma resolveCandidates_ok (store : GeoStore) (lat lon : ℚ) :
    ∃ cands, resolveCandidates store (encodeRaw lat lon 6) = .ok cands := by
  obtain ⟨d, hd⟩ := decode_encodeRaw_ok lat lon (p := 6) (by norm_num)
  obtain ⟨L, hL, hLlen, hLs⟩ := getNeighbors_ok hd
  have hLdec : ∀ s ∈ L, ∃ ds, decode s = .ok ds := by
    intro s hs
    obtain ⟨la, lo, rfl⟩ := hLs s hs
    apply decode_ok_of_valid
    · apply encodeRaw_ne_empty
      rw [encodeRaw_length]
      norm_num
    · exact encodeRaw_valid la lo _
  obtain ⟨out, hout⟩ := neighbors_fold_ok L hLdec []
  simp only [exceptPure] at hout
  rw [resolveCandidates]
  by_cases h1 : (getCandidateCountries store (encodeRaw lat lon 6)).length = 0
  · simp only [h1, if_true, hL, hout, exceptBind_ok, exceptPure]
    by_cases h2 : ((L.flatMap (getCandidateCountries store)).eraseDups).length = 0
    · simp only [h2, if_true, hL, hout, exceptBind_ok, exceptPure]
      by_cases h3 : (((out.eraseDups.filter
            (fun h => h ≠ encodeRaw lat lon 6)).flatMap
            (getCandidateCountries store)).eraseDups).length = 0
      · simp only [h3, if_true]
        exact ⟨_, rfl⟩
      · simp only [h3, if_false]
        exact ⟨_, rfl⟩
    · simp only [h2, if_false, exceptBind_ok, exceptPure]
      exact ⟨_, rfl⟩
  · simp only [h1, if_false, exceptBind_ok, exceptPure]
    exact ⟨_, rfl⟩

lemma candidateMatches_mem {store : GeoStore} {pt : Pt} {cands : List Nat}
    {cid : Nat} {conf : ℝ} (h : (cid, conf) ∈ candidateMatches store pt cands) :
    ∃ pd ext, lookupKey store.polygons cid = some pd ∧
      firstMatchingExterior pt pd = some ext ∧
      conf = calculateConfidence pt ext (holesOf pd) cands.length := by
  rw [candidateMatches] at h
  obtain ⟨a, _, ha⟩ := List.mem_filterMap.mp h
  cases hpd : lookupKey store.polygons a with
  | none => rw [hpd] at ha; cases ha
  | some pd =>
    rw [hpd] at ha
    obtain ⟨ext, hext, heq⟩ := Option.map_eq_some'.mp ha
    obtain ⟨rfl, rfl⟩ : a = cid ∧
        calculateConfidence pt ext (holesOf pd) cands.length = conf := by
      exact ⟨congrArg Prod.fst heq, congrArg Prod.snd heq⟩
    exact ⟨pd, ext, hpd, hext, rfl⟩

lemma fallbackMatches_mem {store : GeoStore} {pt : Pt} {cands : List Nat}
    {cid : Nat} {conf : ℝ} (h : (cid, conf) ∈ fallbackMatches store pt cands) :
    cands.contains cid = false ∧
    ∃ pd ext, lookupKey store.polygons cid = some pd ∧
      firstMatchingExterior pt pd = some ext ∧
      conf = calculateConfidence pt ext (holesOf pd) 1 * 0.95 := by
  rw [fallbackMatches] at h
  obtain ⟨entry, _, ha⟩ := List.mem_filterMap.mp h
  by_cases hco : cands.contains entry.1
  · rw [if_pos hco] at ha; cases ha
  · rw [if_neg hco] at ha
    cases hpd : lookupKey store.polygons entry.1 with
    | none => rw [hpd] at ha; cases ha
    | some pd =>
      rw [hpd] at ha
      obtain ⟨ext, hext, heq⟩ := Option.map_eq_some'.mp ha
      obtain ⟨rfl, rfl⟩ : entry.1 = cid ∧
          calculateConfidence pt ext (holesOf pd) 1 * 0.95 = conf := by
        exact ⟨congrArg Prod.fst heq, congrArg Prod.snd heq⟩
      exact ⟨Bool.eq_false_iff.mpr hco, pd, ext, hpd, hext, rfl⟩

lemma fallbackMatches_complete {store : GeoStore} {pt : Pt} {cands : List Nat}
    {cid : Nat} {pd : PolygonData} {ext : Ring}
    (hmem : cid ∈ store.metadata.map Prod.fst)
    (hnc : cands.contains cid = false)
    (hpd : lookupKey store.polygons cid = some pd)
    (hext : firstMatchingExterior pt pd = some ext) :
    (cid, calculateConfidence pt ext (holesOf pd) 1 * 0.95) ∈
      fallbackMatches store pt cands := by
  obtain ⟨entry, hentry, heq⟩ := List.mem_map.mp hmem
  have hnotin : cid ∉ cands := by simpa using hnc
  rw [fallbackMatches]
  refine List.mem_filterMap.mpr ⟨entry, hentry, ?_⟩
  simp [heq, hnotin, hpd, hext]

lemma calculateConfidence_ge (pt : Pt) (e : Ring) (hs : List Ring) (cc : Nat) :
    0.5 ≤ calculateConfidence pt e hs cc :=
  le_max_left _ _

lemma resolveMatches_conf_ge {store : GeoStore} {pt : Pt} {cands : List Nat} :
    ∀ m ∈ resolveMatches store pt cands, 0.475 ≤ m.2 := by
  intro m hm
  obtain ⟨cid, conf⟩ := m
  rw [resolveMatches] at hm
  by_cases hf : (candidateMatches store pt cands).length = 0
  · rw [if_pos hf] at hm
    obtain ⟨_, pd, ext, _, _, rfl⟩ := fallbackMatches_mem hm
    have := calculateConfidence_ge pt ext (holesOf pd) 1
    show (0.475 : ℝ) ≤ calculateConfidence pt ext (holesOf pd) 1 * 0.95
    linarith
  · rw [if_neg hf] at hm
    obtain ⟨pd, ext, _, _, rfl⟩ := candidateMatches_mem hm
    have := calculateConfidence_ge pt ext (holesOf pd) cands.length
    show (0.475 : ℝ) ≤ calculateConfidence pt ext (holesOf pd) cands.length
    linarith

lemma firstMatchingExterior_none {pt : Pt} {pd : PolygonData}
    (h : ∀ ext ∈ exteriorsOf pd, pointInPolygonWithHoles pt ext (holesOf pd) = false) :
    firstMatchingExterior pt pd = none := by
  rw [firstMatchingExterior, List.find?_eq_none]
  intro ext hmem
  simp [h ext hmem]

lemma candidateMatches_nil {store : GeoStore} {pt : Pt} (cands : List Nat)
    (h : ∀ cid pd, (cid, pd) ∈ store.polygons → firstMatchingExterior pt pd = none) :
    candidateMatches store pt cands = [] := by
  rw [candidateMatches, List.filterMap_eq_nil_iff]
  intro cid _
  cases hpd : lookupKey store.polygons cid with
  | none => rfl
  | some pd => simp [hpd, h cid pd (lookupKey_mem hpd)]

lemma fallbackMatches_nil {store : GeoStore} {pt : Pt} (cands : List Nat)
    (h : ∀ cid pd, (cid, pd) ∈ store.polygons → firstMatchingExterior pt pd = none) :
    fallbackMatches store pt cands = [] := by
  rw [fallbackMatches, List.filterMap_eq_nil_iff]
  intro entry _
  by_cases hco : cands.contains entry.1
  · rw [if_pos hco]
  · rw [if_neg hco]
    cases hpd : lookupKey store.polygons entry.1 with
    | none => rfl
    | some pd => simp [hpd, h entry.1 pd (lookupKey_mem hpd)]

/-! ## C6 — error versus no-match -/

/-- C6.  `resolve` fails exactly on invalid input: out-of-range
latitude/longitude surfaces as an error; an in-range point contained in
no country polygon yields the `countryId = null`, `confidence = 0.0`
no-match result without error; and on a store where every country with
polygon data also has metadata, an in-range query never errors. -/
theorem c6_error_versus_no_match (store : GeoStore) (lat lon : ℚ) :
    ((lat < -90 ∨ lat > 90 ∨ lon < -180 ∨ lon > 180) →
      ∃ e, resolve store lat lon = .error e) ∧
    ((-90 ≤ lat ∧ lat ≤ 90 ∧ -180 ≤ lon ∧ lon ≤ 180) →
      (∀ cid pd ext, (cid, pd) ∈ store.polygons → ext ∈ exteriorsOf pd →
        pointInPolygonWithHoles (lat, lon) ext (holesOf pd) = false) →
      resolve store lat lon = .ok noMatchResult) ∧
    ((-90 ≤ lat ∧ lat ≤ 90 ∧ -180 ≤ lon ∧ lon ≤ 180) →
      (∀ cid pd, (cid, pd) ∈ store.polygons →
        (lookupKey store.metadata cid).isSome) →
      ∃ r, resolve store lat lon = .ok r) := by
  refine ⟨?_, ?_, ?_⟩
  · intro hbad
    by_cases hlat : lat < -90 ∨ lat > 90
    · refine ⟨"Latitude must be between -90 and 90", ?_⟩
      rw [resolve, encode, if_pos hlat]
      rfl
    · have hlon : lon < -180 ∨ lon > 180 := by
        rcases hbad with h | h | h | h
        · exact absurd (Or.inl h) hlat
        · exact absurd (Or.inr h) hlat
        · exact Or.inl h
        · exact Or.inr h
      refine ⟨"Longitude must be between -180 and 180", ?_⟩
      rw [resolve, encode, if_neg hlat, if_pos hlon]
      rfl
  · rintro ⟨h1, h2, h3, h4⟩ hnone
    have hfme : ∀ cid pd, (cid, pd) ∈ store.polygons →
        firstMatchingExterior (lat, lon) pd = none := fun cid pd hmem =>
      firstMatchingExterior_none (fun ext hext => hnone cid pd ext hmem hext)
    obtain ⟨cands, hc⟩ := resolveCandidates_ok store lat lon
    rw [resolve, encode_ok lat lon 6 h1 h2 h3 h4, exceptBind_ok, hc, exceptBind_ok]
    by_cases hlen : cands.length = 0
    · rw [if_pos hlen]
      rfl
    · rw [if_neg hlen]
      have hm : resolveMatches store (lat, lon) cands = [] := by
        rw [resolveMatches, candidateMatches_nil cands hfme]
        simp [fallbackMatches_nil cands hfme]
      rw [hm]
      rfl
  · rintro ⟨h1, h2, h3, h4⟩ hmeta
    obtain ⟨cands, hc⟩ := resolveCandidates_ok store lat lon
    rw [resolve, encode_ok lat lon 6 h1 h2 h3 h4, exceptBind_ok, hc, exceptBind_ok]
    by_cases hlen : cands.length = 0
    · rw [if_pos hlen]
      exact ⟨noMatchResult, rfl⟩
    · rw [if_neg hlen]
      cases hbm : bestMatch (resolveMatches store (lat, lon) cands) with
      | none => exact ⟨noMatchResult, rfl⟩
      | some best =>
        obtain ⟨bcid, bconf⟩ := best
        have hbmem := bestMatch_mem _ _ hbm
        have hpoly : ∃ pd, lookupKey store.polygons bcid = some pd := by
          rw [resolveMatches] at hbmem
          by_cases hf : (candidateMatches store (lat, lon) cands).length = 0
          · rw [if_pos hf] at hbmem
            obtain ⟨_, pd, _, hpd, _, _⟩ := fallbackMatches_mem hbmem
            exact ⟨pd, hpd⟩
          · rw [if_neg hf] at hbmem
            obtain ⟨pd, _, hpd, _, _⟩ := candidateMatches_mem hbmem
            exact ⟨pd, hpd⟩
        obtain ⟨pd, hpd⟩ := hpoly
        obtain ⟨md, hmd⟩ := Option.isSome_iff_exists.mp
          (hmeta bcid pd (lookupKey_mem hpd))
        refine ⟨⟨some bcid, some md.name, some md.iso2, some md.iso3,
          some md.continent, some md.timezone, bconf⟩, ?_⟩
        simp only [hmd]
        rfl

/-- C6 witness: out-of-range latitude errors; the origin against
`fixtureStoreNoMatch` (whose polygon table is empty) returns the
no-match result and, in particular, does not error. -/
theorem c6_error_versus_no_match_witness :
    (∃ e, resolve fixtureStoreNoMatch 91 0 = .error e) ∧
    resolve fixtureStoreNoMatch 0 0 = .ok noMatchResult ∧
    ∃ r, resolve fixtureStoreNoMatch 0 0 = .ok r :=
  ⟨(c6_error_versus_no_match fixtureStoreNoMatch 91 0).1 (by norm_num),
   (c6_error_versus_no_match fixtureStoreNoMatch 0 0).2.1
     (by norm_num) (by intro cid pd ext hmem _; cases hmem),
   (c6_error_versus_no_match fixtureStoreNoMatch 0 0).2.2
     (by norm_num) (by intro cid pd hmem; cases hmem)⟩

/-! ## C7 — fallback-match discount -/

/-- C7.  When no geohash-derived candidate passed the point-in-polygon
test, the ranked matches are exactly the fallback matches; the fallback
scans every country of the metadata table outside the candidate set,
recording — for the first matching exterior — a confidence of
`calculateConfidence(point, exterior, holes, 1) * 0.95`; and every
fallback match is of that form. -/
theorem c7_fallback_discount (store : GeoStore) (lat lon : ℚ) (candidates : List Nat)
    (hempty : candidateMatches store (lat, lon) candidates = []) :
    resolveMatches store (lat, lon) candidates =
      fallbackMatches store (lat, lon) candidates ∧
    (∀ cid, cid ∈ store.metadata.map Prod.fst → candidates.contains cid = false →
      ∀ pd ext, lookupKey store.polygons cid = some pd →
        firstMatchingExterior (lat, lon) pd = some ext →
        (cid, calculateConfidence (lat, lon) ext (holesOf pd) 1 * 0.95) ∈
          fallbackMatches store (lat, lon) candidates) ∧
    (∀ cid conf, (cid, conf) ∈ fallbackMatches store (lat, lon) candidates →
      candidates.contains cid = false ∧
      ∃ pd ext, lookupKey store.polygons cid = some pd ∧
        firstMatchingExterior (lat, lon) pd = some ext ∧
        conf = calculateConfidence (lat, lon) ext (holesOf pd) 1 * 0.95) := by
  refine ⟨?_, ?_, ?_⟩
  · rw [resolveMatches, hempty]
    rfl
  · intro cid hmem hnc pd ext hpd hext
    exact fallbackMatches_complete hmem hnc hpd hext
  · intro cid conf hm
    exact fallbackMatches_mem hm

/-- C7 witness: at the origin in `fixtureStoreFallback`, candidate
country 1 (a faraway triangle) does not match, so the fallback applies,
and country 2 (a square around the origin) is recorded with the
discounted confidence. -/
theorem c7_fallback_discount_witness :
    resolveMatches fixtureStoreFallback (0, 0) [1] =
      fallbackMatches fixtureStoreFallback (0, 0) [1] ∧
    (∀ cid, cid ∈ fixtureStoreFallback.metadata.map Prod.fst →
      ([1] : List Nat).contains cid = false →
      ∀ pd ext, lookupKey fixtureStoreFallback.polygons cid = some pd →
        firstMatchingExterior (0, 0) pd = some ext →
        (cid, calculateConfidence (0, 0) ext (holesOf pd) 1 * 0.95) ∈
          fallbackMatches fixtureStoreFallback (0, 0) [1]) ∧
    (∀ cid conf, (cid, conf) ∈ fallbackMatches fixtureStoreFallback (0, 0) [1] →
      ([1] : List Nat).contains cid = false ∧
      ∃ pd ext, lookupKey fixtureStoreFallback.polygons cid = some pd ∧
        firstMatchingExterior (0, 0) pd = some ext ∧
        conf = calculateConfidence (0, 0) ext (holesOf pd) 1 * 0.95) :=
  c7_fallback_discount fixtureStoreFallback 0 0 [1] (by with_unfolding_all rfl)

/-! ## C9 — implicit result invariant -/

/-- C9.  Every successfully returned `ResolutionResult` has a `null`
country exactly when its confidence is `0.0`; a non-null country always
carries confidence at least `0.475` (the scorer's 0.5 clamp times the
0.95 fallback discount), so zero confidence uniquely identifies the
no-match outcome. -/
theorem c9_null_iff_zero_confidence (store : GeoStore) (lat lon : ℚ)
    (r : ResolutionResult) (h : resolve store lat lon = .ok r) :
    (r.countryId = none ↔ r.confidence = 0) ∧
    (r.countryId ≠ none → 0.475 ≤ r.confidence) := by
  rw [resolve] at h
  cases hg : encode lat lon 6 with
  | error e => rw [hg] at h; exact Except.noConfusion h
  | ok geohash =>
    rw [hg, exceptBind_ok] at h
    cases hc : resolveCandidates store geohash with
    | error e => rw [hc] at h; exact Except.noConfusion h
    | ok cands =>
      rw [hc, exceptBind_ok] at h
      by_cases hlen : cands.length = 0
      · rw [if_pos hlen] at h
        cases h
        simp [noMatchResult]
      · rw [if_neg hlen] at h
        cases hbm : bestMatch (resolveMatches store (lat, lon) cands) with
        | none =>
          rw [hbm] at h
          cases h
          simp [noMatchResult]
        | some best =>
          rw [hbm] at h
          cases hmd : lookupKey store.metadata best.1 with
          | none =>
            simp only [hmd] at h
            exact Except.noConfusion h
          | some md =>
            simp only [hmd] at h
            cases h
            have hconf : 0.475 ≤ best.2 :=
              resolveMatches_conf_ge best (bestMatch_mem _ _ hbm)
            constructor
            · constructor
              · intro habs; exact absurd habs (by simp)
              · intro hzero
                exfalso
                simp only at hzero
                rw [hzero] at hconf
                norm_num at hconf
            · intro _
              exact hconf

/-- C9 witness: the no-match result of `fixtureStoreNoMatch` at the
origin satisfies the invariant. -/
theorem c9_null_iff_zero_confidence_witness :
    (noMatchResult.countryId = none ↔ noMatchResult.confidence = 0) ∧
    (noMatchResult.countryId ≠ none → 0.475 ≤ noMatchResult.confidence) :=
  c9_null_iff_zero_confidence fixtureStoreNoMatch 0 0 noMatchResult
    (by with_unfolding_all rfl)

end GeoIntel
